import Mathlib

/-!
Shallow embedding of `src/libbfddp/bfddp.c` (volta-networks/libbfddp) and
proofs about its buffer-management and framing machinery.

Memory is modelled as a total function `Nat → Nat` (byte at each offset);
only offsets below `total` are meaningful.  The `read(2)` system call is
modelled by an environment-supplied event: either a failure with an errno,
or a delivery of a byte list (the empty list is the 0-byte return, i.e. an
orderly close).  `errno` is threaded explicitly as a `Nat`.
-/

namespace Bfddp

/-- Linux errno value for EINTR. -/
def EINTR : Nat := 4

/-- Linux errno value for EAGAIN (same as EWOULDBLOCK on Linux). -/
def EAGAIN : Nat := 11

/-- Linux errno value for EWOULDBLOCK. -/
def EWOULDBLOCK : Nat := 11

/-- Linux errno value for EINPROGRESS. -/
def EINPROGRESS : Nat := 115

/-- Linux (x86-64) value of the O_NONBLOCK file-status flag. -/
def O_NONBLOCK : Nat := 2048

/-- Embedding of `struct bfddp_buf` (bfddp.c lines 46-57): backing memory,
total capacity, write position, remaining free bytes, packet cursor. -/
structure BfddpBuf where
  buf : Nat → Nat
  total : Nat
  position : Nat
  remaining : Nat
  packet : Nat

/-- The buffer cursor invariant stated by the spec:
`remaining == total - position` and `0 ≤ packet ≤ position ≤ total`. -/
def BfddpBuf.inv (b : BfddpBuf) : Prop :=
  b.remaining = b.total - b.position ∧ b.packet ≤ b.position ∧ b.position ≤ b.total

instance (b : BfddpBuf) : Decidable b.inv := by
  unfold BfddpBuf.inv
  infer_instance

/-- Embedding of the macro `BFDDP_BUF_FULL` (bfddp.c line 41). -/
def BFDDP_BUF_FULL (b : BfddpBuf) : Bool := b.position == b.total

/-- Embedding of `struct bfddp_ctx` (bfddp.c lines 64-73); the socket file
descriptor is an `Int`. -/
structure BfddpCtx where
  sock : Int
  connecting : Bool
  inbuf : BfddpBuf
  outbuf : BfddpBuf

/-- A freshly allocated buffer as set up by `bfddp_new` (bfddp.c lines
202-221): `calloc` zeroes `position` and `packet`, then
`total = remaining = len`.  `mem` is the (arbitrary) content of the
`malloc`ed backing storage. -/
def mkBuf (len : Nat) (mem : Nat → Nat) : BfddpBuf :=
  ⟨mem, len, 0, len, 0⟩

/-- Embedding of `bfddp_new` (bfddp.c lines 197-230).  The three booleans
model success of the `calloc`/`malloc` calls; `memIn`/`memOut` model the
arbitrary initial contents of the two malloced buffers. -/
def bfddp_new (ctxAlloc inAlloc outAlloc : Bool) (memIn memOut : Nat → Nat)
    (inbuflen outbuflen : Nat) : Option BfddpCtx :=
  if ctxAlloc = false then none
  else
    let inlen := if inbuflen ≤ 4096 then 4096 else inbuflen
    if inAlloc = false then none
    else
      let outlen := if outbuflen ≤ 4096 then 4096 else outbuflen
      if outAlloc = false then none
      else some ⟨0, false, mkBuf inlen memIn, mkBuf outlen memOut⟩

/-- Embedding of `bfddp_buf_pulldown` (bfddp.c lines 132-148).  Note the
source guards on `position == 0` (line 137); the memmove of
`movebytes = position - packet` bytes from offset `packet` to offset 0 is
the pointwise update of the memory function. -/
def bfddp_buf_pulldown (b : BfddpBuf) : BfddpBuf :=
  if b.position = 0 then b
  else
    let movebytes := b.position - b.packet
    { b with
      buf := fun i => if i < movebytes then b.buf (b.packet + i) else b.buf i
      remaining := b.total - movebytes
      position := movebytes
      packet := 0 }

/-- One outcome of the `read(2)` system call, supplied by the environment:
either a failure setting `errno`, or a delivery of bytes (`data []` is the
0-byte return, i.e. the peer closed the connection). -/
inductive ReadEvent where
  | errno (e : Nat)
  | data (bytes : List Nat)

/-- Writing a byte list into memory starting at offset `pos` (the effect of
`read` storing into `buf->buf + buf->position`). -/
def writeBytes (mem : Nat → Nat) (pos : Nat) (bytes : List Nat) : Nat → Nat :=
  fun i => if pos ≤ i ∧ i < pos + bytes.length then bytes.getD (i - pos) 0 else mem i

/-- Whether an errno is one of the transient reasons tested at
bfddp.c line 180. -/
def transientErrno (e : Nat) : Bool :=
  e == EINTR || e == EAGAIN || e == EWOULDBLOCK

/-- Result of one `bfddp_buf_read` call: the buffer afterwards, the returned
`ssize_t`, the errno afterwards, and whether a `read(2)` call was issued. -/
structure ReadOut where
  buf : BfddpBuf
  rv : Int
  errno : Nat
  issued : Bool

/-- Embedding of `bfddp_buf_read` (bfddp.c lines 162-192).  `ev` is the
outcome the kernel would give to a `read` of up to `b.remaining` bytes
(deliveries are truncated to the requested count, as `read(2)` guarantees);
`e` is errno on entry. -/
def bfddp_buf_read (b : BfddpBuf) (ev : ReadEvent) (e : Nat) : ReadOut :=
  if BFDDP_BUF_FULL b then ⟨b, 0, e, false⟩
  else
    match ev with
    | .errno E => if transientErrno E then ⟨b, 0, E, true⟩ else ⟨b, -1, E, true⟩
    | .data bytes =>
      let bs := bytes.take b.remaining
      if bs.length = 0 then ⟨b, -1, 0, true⟩
      else
        ⟨{ b with
            buf := writeBytes b.buf b.position bs
            position := b.position + bs.length
            remaining := b.remaining - bs.length },
         (bs.length : Int), e, true⟩

/-- Result of a full `bfddp_read` call: buffer, returned total, errno. -/
structure PumpOut where
  buf : BfddpBuf
  ret : Int
  errno : Nat

/-- Embedding of the do/while loop of `bfddp_read` (bfddp.c lines 282-302),
consuming one environment event per iteration.  `none` means the event
trace was exhausted while the loop still wanted to read. -/
def bfddp_read_loop : BfddpBuf → Int → Nat → List ReadEvent → Option PumpOut
  | _, _, _, [] => none
  | b, total, e, ev :: evs =>
    let r := bfddp_buf_read b ev e
    if r.rv = -1 then
      if total = 0 then some ⟨r.buf, -1, r.errno⟩
      else some ⟨r.buf, total, r.errno⟩
    else
      let t := total + r.rv
      if BFDDP_BUF_FULL r.buf then some ⟨r.buf, t, r.errno⟩
      else if r.rv = 0 then some ⟨r.buf, t, r.errno⟩
      else bfddp_read_loop r.buf t r.errno evs

/-- Modelled from the spec: `struct bfddp_message` is declared in `bfddp.h`,
which is not in `src/`; only its size enters `bfddp_read` (bfddp.c line
278), so the embedding takes that size as the parameter `msgsz`. -/
def preRead (msgsz : Nat) (b : BfddpBuf) : BfddpBuf :=
  if b.remaining ≤ msgsz then bfddp_buf_pulldown b else b

/-- Embedding of `bfddp_read` (bfddp.c lines 267-305): the pulldown guard
followed by the read loop with `total = 0`. -/
def bfddp_read (msgsz : Nat) (b : BfddpBuf) (evs : List ReadEvent) (e : Nat) :
    Option PumpOut :=
  bfddp_read_loop (preRead msgsz b) 0 e evs

/-- Embedding of `bfddp_read_finish` (bfddp.c lines 325-329). -/
def bfddp_read_finish (c : BfddpCtx) : BfddpCtx :=
  { c with inbuf := bfddp_buf_pulldown c.inbuf }

/-- Embedding of `bfddp_next_message` (bfddp.c lines 307-323), returning the
offset of the returned `struct bfddp_message *` view into the inbound
buffer (`none` = NULL).  `lenAt` models the `msg->length` field access:
`struct bfddp_message` is declared in `bfddp.h`, absent from `src/`, so per
the spec the length is readable from the header at a known offset and we
keep the decoder abstract.  The source takes the message pointer at
`&buf->buf[buf->position]` (line 318) and compares `msg->length` with
`buf->position` (line 319). -/
def bfddp_next_message (lenAt : (Nat → Nat) → Nat → Nat) (c : BfddpCtx) :
    Option Nat :=
  let b := c.inbuf
  if b.packet ≥ b.position then none
  else if lenAt b.buf b.position > b.position then none
  else some b.position

/-- A concrete length decoder for witnesses: 16-bit big-endian at the start
of the header. -/
def lenBE (mem : Nat → Nat) (off : Nat) : Nat :=
  (mem off % 256) * 256 + mem (off + 1) % 256

/-! ### Socket lifecycle (`bfddp_connect` and its helpers) -/

/-- Environment for one `bfddp_connect` call: the outcomes the kernel gives
to each system call it makes, in source order (bfddp.c lines 232-265). -/
structure SockEnv where
  socketFd : Int
  socketErrno : Nat
  getflFlags : Int
  getflErrno : Nat
  setflRv : Int
  setflErrno : Nat
  nodelayRv : Int
  nodelayErrno : Nat
  connectRv : Int
  connectErrno : Nat

/-- Embedding of `sock_set_nonblock` (bfddp.c lines 78-98): returns the
function result and errno afterwards, given errno `e` on entry. -/
def sock_set_nonblock (env : SockEnv) (e : Nat) : Int × Nat :=
  if env.getflFlags = -1 then (-1, env.getflErrno)
  else if env.getflFlags.toNat.land O_NONBLOCK ≠ 0 then (0, e)
  else if env.setflRv = -1 then (-1, env.setflErrno)
  else (0, e)

/-- Embedding of `socktcp_set_nodelay` (bfddp.c lines 100-110): `setsockopt`
failing (nonzero return) yields `-1` with its errno. -/
def socktcp_set_nodelay (env : SockEnv) (e : Nat) : Int × Nat :=
  if env.nodelayRv ≠ 0 then (-1, env.nodelayErrno) else (0, e)

/-- The retry loop inside `sock_close` (bfddp.c lines 118-126).  Each list
entry is one `close(2)` outcome (`none` = returned 0, `some ec` = returned
-1 with errno `ec`).  Result: whether a close succeeded, and errno after
the loop (before the restore at line 129). -/
def close_retry : List (Option Nat) → Nat → Bool × Nat
  | [], e => (false, e)
  | none :: _, e => (true, e)
  | some ec :: rs, _ => if ec ≠ EINTR then (false, ec) else close_retry rs ec

/-- Embedding of `sock_close` (bfddp.c lines 112-130): runs the retry loop,
then restores the entry errno.  Returns errno afterwards and the list of
closed descriptors (the socket, when a close call succeeded). -/
def sock_close (closeTrace : List (Option Nat)) (sock : Int) (e : Nat) :
    Nat × List Int :=
  let r := close_retry closeTrace e
  (e, if r.1 then [sock] else [])

/-- Result of `bfddp_connect`: the context afterwards, the return value,
errno afterwards, and the descriptors closed during the call. -/
structure ConnOut where
  ctx : BfddpCtx
  ret : Int
  errno : Nat
  closed : List Int

/-- Embedding of `bfddp_connect` (bfddp.c lines 232-265) over the system
call outcomes in `env`; `e` is errno on entry. -/
def bfddp_connect (env : SockEnv) (closeTrace : List (Option Nat))
    (c : BfddpCtx) (e : Nat) : ConnOut :=
  if env.socketFd = -1 then ⟨c, -1, env.socketErrno, []⟩
  else
    let sock := env.socketFd
    let nb := sock_set_nonblock env e
    if nb.1 = -1 then
      let cl := sock_close closeTrace sock nb.2
      ⟨c, -1, cl.1, cl.2⟩
    else
      let nd := socktcp_set_nodelay env nb.2
      if nd.1 = -1 then
        let cl := sock_close closeTrace sock nd.2
        ⟨c, -1, cl.1, cl.2⟩
      else
        let cerr := if env.connectRv = -1 then env.connectErrno else nd.2
        if env.connectRv = -1 ∧ env.connectErrno ≠ EINPROGRESS then
          let cl := sock_close closeTrace sock cerr
          ⟨c, -1, cl.1, cl.2⟩
        else
          ⟨{ c with sock := sock, connecting := env.connectRv = -1 }, 0, cerr, []⟩

/-! ### Helper lemmas -/

/-- `bfddp_buf_read` preserves the cursor invariant. -/
lemma buf_read_inv (b : BfddpBuf) (ev : ReadEvent) (e : Nat) (h : b.inv) :
    (bfddp_buf_read b ev e).buf.inv := by
  unfold bfddp_buf_read
  split
  · exact h
  · match ev with
    | .errno E =>
      dsimp only
      split <;> exact h
    | .data bytes =>
      dsimp only
      split
      · exact h
      · obtain ⟨h1, h2, h3⟩ := h
        have hle : (bytes.take b.remaining).length ≤ b.remaining := by
          simp [List.length_take]
        exact ⟨by dsimp; omega, by dsimp; omega, by dsimp; omega⟩

/-- `bfddp_buf_pulldown` preserves the cursor invariant. -/
lemma pulldown_inv (b : BfddpBuf) (h : b.inv) : (bfddp_buf_pulldown b).inv := by
  unfold bfddp_buf_pulldown
  obtain ⟨h1, h2, h3⟩ := h
  split
  · exact ⟨h1, h2, h3⟩
  · refine ⟨rfl, Nat.zero_le _, ?_⟩
    show b.position - b.packet ≤ b.total
    omega

/-- The read loop preserves the cursor invariant. -/
lemma pump_loop_inv : ∀ (evs : List ReadEvent) (b : BfddpBuf) (total : Int) (e : Nat)
    (out : PumpOut), b.inv → bfddp_read_loop b total e evs = some out → out.buf.inv := by
  intro evs
  induction evs with
  | nil =>
    intro b total e out _ h
    simp [bfddp_read_loop] at h
  | cons ev evs ih =>
    intro b total e out hb h
    rw [bfddp_read_loop] at h
    have hr : (bfddp_buf_read b ev e).buf.inv := buf_read_inv b ev e hb
    dsimp only at h
    split at h
    · split at h <;> (injection h with h; subst h; exact hr)
    · split at h
      · injection h with h; subst h; exact hr
      · split at h
        · injection h with h; subst h; exact hr
        · exact ih _ _ _ _ hr h

/-- Frame facts for one `bfddp_buf_read` call: `packet` and `total` are
untouched, `position` does not decrease, bytes below `position` are
untouched, an error leaves the buffer unchanged, and a non-error return
value equals the advance of `position`. -/
lemma buf_read_frame (b : BfddpBuf) (ev : ReadEvent) (e : Nat) :
    (bfddp_buf_read b ev e).buf.packet = b.packet ∧
    (bfddp_buf_read b ev e).buf.total = b.total ∧
    b.position ≤ (bfddp_buf_read b ev e).buf.position ∧
    (∀ i, i < b.position → (bfddp_buf_read b ev e).buf.buf i = b.buf i) ∧
    ((bfddp_buf_read b ev e).rv = -1 → (bfddp_buf_read b ev e).buf = b) ∧
    ((bfddp_buf_read b ev e).rv ≠ -1 →
      (bfddp_buf_read b ev e).rv =
        (((bfddp_buf_read b ev e).buf.position - b.position : Nat) : Int)) := by
  unfold bfddp_buf_read
  split
  · exact ⟨rfl, rfl, le_refl _, fun i _ => rfl, fun h => rfl, fun _ => by simp⟩
  · match ev with
    | .errno E =>
      dsimp only
      split
      · exact ⟨rfl, rfl, le_refl _, fun i _ => rfl, fun h => rfl, fun _ => by simp⟩
      · exact ⟨rfl, rfl, le_refl _, fun i _ => rfl, fun _ => rfl, fun h => absurd rfl h⟩
    | .data bytes =>
      dsimp only
      split
      · exact ⟨rfl, rfl, le_refl _, fun i _ => rfl, fun _ => rfl, fun h => absurd rfl h⟩
      · refine ⟨rfl, rfl, Nat.le_add_right _ _, ?_, ?_, ?_⟩
        · intro i hi
          show writeBytes b.buf b.position (bytes.take b.remaining) i = b.buf i
          unfold writeBytes
          rw [if_neg]
          omega
        · intro hcon
          exfalso
          have hc2 : ((bytes.take b.remaining).length : Int) = -1 := hcon
          omega
        · intro _
          show ((bytes.take b.remaining).length : Int) =
            ((b.position + (bytes.take b.remaining).length - b.position : Nat) : Int)
          simp

/-- Frame facts for the read loop: `packet` and `total` are untouched,
`position` does not decrease, bytes below the entry `position` are
untouched, and the returned total accounts exactly for the advance of
`position` (or is the `-1` sentinel, possible only when the accumulated
total was 0 and nothing was appended). -/
lemma pump_loop_frame : ∀ (evs : List ReadEvent) (b : BfddpBuf) (total : Int) (e : Nat)
    (out : PumpOut), 0 ≤ total → bfddp_read_loop b total e evs = some out →
    out.buf.packet = b.packet ∧ out.buf.total = b.total ∧
    b.position ≤ out.buf.position ∧
    (∀ i, i < b.position → out.buf.buf i = b.buf i) ∧
    (out.ret = total + ((out.buf.position - b.position : Nat) : Int) ∨
      (out.ret = -1 ∧ out.buf.position = b.position ∧ total = 0)) := by
  intro evs
  induction evs with
  | nil =>
    intro b total e out _ h
    simp [bfddp_read_loop] at h
  | cons ev evs ih =>
    intro b total e out htot h
    rw [bfddp_read_loop] at h
    obtain ⟨f1, f2, f3, f4, f5, f6⟩ := buf_read_frame b ev e
    dsimp only at h
    split at h
    · rename_i hrv
      have hbeq := f5 hrv
      split at h <;>
        (injection h with h; subst h; rw [hbeq]) <;>
        rename_i htz
      · exact ⟨rfl, rfl, le_refl _, fun i _ => rfl, Or.inr ⟨rfl, rfl, htz⟩⟩
      · exact ⟨rfl, rfl, le_refl _, fun i _ => rfl, Or.inl (by simp)⟩
    · rename_i hrv
      have hstep := f6 hrv
      split at h
      · injection h with h; subst h
        exact ⟨f1, f2, f3, f4, Or.inl (by rw [hstep])⟩
      · split at h
        · injection h with h; subst h
          exact ⟨f1, f2, f3, f4, Or.inl (by rw [hstep])⟩
        · rename_i hrz
          have htot2 : 0 ≤ total + (bfddp_buf_read b ev e).rv := by
            rw [hstep]; positivity
          obtain ⟨g1, g2, g3, g4, g5⟩ := ih _ _ _ _ htot2 h
          refine ⟨g1.trans f1, g2.trans f2, f3.trans g3, ?_, ?_⟩
          · intro i hi
            rw [g4 i (lt_of_lt_of_le hi f3), f4 i hi]
          · rcases g5 with g5 | ⟨g5r, g5p, g5t⟩
            · refine Or.inl ?_
              rw [g5, hstep]
              have hle1 : b.position ≤ (bfddp_buf_read b ev e).buf.position := f3
              have hle2 : (bfddp_buf_read b ev e).buf.position ≤ out.buf.position := g3
              omega
            · exfalso
              apply hrz
              omega

/-! ### Concrete inputs used by witnesses and counterexamples -/

/-- All-zero backing memory. -/
def zeroMem : Nat → Nat := fun _ => 0

/-- The context produced by a successful `bfddp_new 100 100`. -/
def exNewCtx : BfddpCtx := ⟨0, false, mkBuf 4096 zeroMem, mkBuf 4096 zeroMem⟩

/-- A mid-stream inbound buffer: 10 bytes received, 4 already consumed. -/
def exBufA : BfddpBuf := ⟨zeroMem, 4096, 10, 4086, 4⟩

/-! ### Claims -/

/-- Claim C8: a successful `bfddp_new` yields buffers of capacity at least
4096; requests at or below 4096 are raised to 4096 and larger requests are
used as given. -/
theorem claim_C8 (ca ia oa : Bool) (mi mo : Nat → Nat) (il ol : Nat) (c : BfddpCtx)
    (h : bfddp_new ca ia oa mi mo il ol = some c) :
    4096 ≤ c.inbuf.total ∧ 4096 ≤ c.outbuf.total ∧
    (il ≤ 4096 → c.inbuf.total = 4096) ∧ (4096 < il → c.inbuf.total = il) ∧
    (ol ≤ 4096 → c.outbuf.total = 4096) ∧ (4096 < ol → c.outbuf.total = ol) := by
  unfold bfddp_new at h
  dsimp only at h
  split at h
  · exact absurd h (by simp)
  · split at h
    · exact absurd h (by simp)
    · split at h
      · exact absurd h (by simp)
      · injection h with h
        subst h
        dsimp only [mkBuf]
        refine ⟨?_, ?_, ?_, ?_, ?_, ?_⟩ <;> intros <;> split <;> omega

/-- Witness for claim C8 at `bfddp_new 100 100`: both buffers come out with
capacity exactly 4096. -/
theorem claim_C8_w :
    4096 ≤ exNewCtx.inbuf.total ∧ exNewCtx.inbuf.total = 4096 ∧
    exNewCtx.outbuf.total = 4096 :=
  ⟨(claim_C8 true true true zeroMem zeroMem 100 100 exNewCtx rfl).1,
   (claim_C8 true true true zeroMem zeroMem 100 100 exNewCtx rfl).2.2.1 (by decide),
   (claim_C8 true true true zeroMem zeroMem 100 100 exNewCtx rfl).2.2.2.2.1 (by decide)⟩

/-- Claim C2: every operation of the library preserves the buffer invariant
`remaining = total - position` together with `packet ≤ position ≤ total`:
`bfddp_new` establishes it for both buffers, and `bfddp_buf_read`,
`bfddp_read`, `bfddp_buf_pulldown` and `bfddp_read_finish` preserve it
(`bfddp_next_message` does not mutate the buffer at all in the model). -/
theorem claim_C2 :
    (∀ ca ia oa mi mo il ol c, bfddp_new ca ia oa mi mo il ol = some c →
      c.inbuf.inv ∧ c.outbuf.inv) ∧
    (∀ b ev e, BfddpBuf.inv b → (bfddp_buf_read b ev e).buf.inv) ∧
    (∀ msgsz b evs e out, BfddpBuf.inv b → bfddp_read msgsz b evs e = some out →
      out.buf.inv) ∧
    (∀ b, BfddpBuf.inv b → (bfddp_buf_pulldown b).inv) ∧
    (∀ c : BfddpCtx, c.inbuf.inv → (bfddp_read_finish c).inbuf.inv) := by
  refine ⟨?_, buf_read_inv, ?_, pulldown_inv, ?_⟩
  · intro ca ia oa mi mo il ol c h
    unfold bfddp_new at h
    dsimp only at h
    split at h
    · exact absurd h (by simp)
    · split at h
      · exact absurd h (by simp)
      · split at h
        · exact absurd h (by simp)
        · injection h with h
          subst h
          exact ⟨⟨by simp [mkBuf], Nat.le_refl _, Nat.zero_le _⟩,
            ⟨by simp [mkBuf], Nat.le_refl _, Nat.zero_le _⟩⟩
  · intro msgsz b evs e out hb h
    unfold bfddp_read at h
    refine pump_loop_inv evs (preRead msgsz b) 0 e out ?_ h
    unfold preRead
    split
    · exact pulldown_inv b hb
    · exact hb
  · intro c h
    exact pulldown_inv _ h

/-- Witness for claim C2 at concrete inputs. -/
theorem claim_C2_w :
    (exNewCtx.inbuf.inv ∧ exNewCtx.outbuf.inv) ∧
    (bfddp_buf_read exBufA (ReadEvent.data [1, 2]) 0).buf.inv ∧
    (PumpOut.mk exBufA 0 11).buf.inv ∧
    (bfddp_buf_pulldown exBufA).inv ∧
    (bfddp_read_finish exNewCtx).inbuf.inv :=
  ⟨claim_C2.1 true true true zeroMem zeroMem 100 100 exNewCtx rfl,
   claim_C2.2.1 exBufA (ReadEvent.data [1, 2]) 0 (by decide),
   claim_C2.2.2.1 72 exBufA [ReadEvent.errno 11] 5 ⟨exBufA, 0, 11⟩ (by decide) rfl,
   claim_C2.2.2.2.1 exBufA (by decide),
   claim_C2.2.2.2.2 exNewCtx (by decide)⟩

/-- With `packet = 0` (and the cursor invariant) a pulldown changes nothing
observable: contents below `position` and all cursors are unchanged. -/
lemma pulldown_packet_zero (b : BfddpBuf) (h : b.inv) (hp : b.packet = 0) :
    (∀ i, i < b.position → (bfddp_buf_pulldown b).buf i = b.buf i) ∧
    (bfddp_buf_pulldown b).position = b.position ∧
    (bfddp_buf_pulldown b).packet = b.packet ∧
    (bfddp_buf_pulldown b).remaining = b.remaining ∧
    (bfddp_buf_pulldown b).total = b.total := by
  obtain ⟨h1, h2, h3⟩ := h
  unfold bfddp_buf_pulldown
  split
  · exact ⟨fun i _ => rfl, rfl, rfl, rfl, rfl⟩
  · refine ⟨?_, ?_, ?_, ?_, rfl⟩
    · intro i hi
      show (if i < b.position - b.packet then b.buf (b.packet + i) else b.buf i) = b.buf i
      rw [if_pos (by omega), hp, Nat.zero_add]
    · show b.position - b.packet = b.position
      omega
    · show (0 : Nat) = b.packet
      omega
    · show b.total - (b.position - b.packet) = b.remaining
      omega

/-- After a pulldown of a buffer satisfying the invariant, `packet = 0`. -/
lemma pulldown_packet (b : BfddpBuf) (h : b.inv) : (bfddp_buf_pulldown b).packet = 0 := by
  obtain ⟨h1, h2, h3⟩ := h
  unfold bfddp_buf_pulldown
  split
  · omega
  · rfl

/-- Claim C4: under the cursor invariant, `bfddp_read_finish` moves the
bytes of `[packet, position)` down to offset 0 preserving their contents,
and afterwards `position = old position - old packet`, `packet = 0` and
`remaining = total - position` hold. -/
theorem claim_C4 (c : BfddpCtx) (h : c.inbuf.inv) :
    (bfddp_read_finish c).inbuf.position = c.inbuf.position - c.inbuf.packet ∧
    (bfddp_read_finish c).inbuf.packet = 0 ∧
    (bfddp_read_finish c).inbuf.total = c.inbuf.total ∧
    (bfddp_read_finish c).inbuf.remaining =
      (bfddp_read_finish c).inbuf.total - (bfddp_read_finish c).inbuf.position ∧
    ∀ i, i < c.inbuf.position - c.inbuf.packet →
      (bfddp_read_finish c).inbuf.buf i = c.inbuf.buf (c.inbuf.packet + i) := by
  obtain ⟨h1, h2, h3⟩ := h
  have hmain :
      (bfddp_buf_pulldown c.inbuf).position = c.inbuf.position - c.inbuf.packet ∧
      (bfddp_buf_pulldown c.inbuf).packet = 0 ∧
      (bfddp_buf_pulldown c.inbuf).total = c.inbuf.total ∧
      (bfddp_buf_pulldown c.inbuf).remaining =
        (bfddp_buf_pulldown c.inbuf).total - (bfddp_buf_pulldown c.inbuf).position ∧
      ∀ i, i < c.inbuf.position - c.inbuf.packet →
        (bfddp_buf_pulldown c.inbuf).buf i = c.inbuf.buf (c.inbuf.packet + i) := by
    unfold bfddp_buf_pulldown
    split
    · rename_i hp
      refine ⟨by omega, by omega, rfl, by omega, ?_⟩
      intro i hi
      exact absurd hi (by omega)
    · refine ⟨rfl, rfl, rfl, rfl, ?_⟩
      intro i hi
      show (if i < c.inbuf.position - c.inbuf.packet
          then c.inbuf.buf (c.inbuf.packet + i) else c.inbuf.buf i) =
        c.inbuf.buf (c.inbuf.packet + i)
      rw [if_pos hi]
  exact hmain

/-- A context whose inbound buffer holds bytes `i ↦ i`, with 10 bytes
received and 4 consumed, capacity 32. -/
def exCtxB : BfddpCtx := ⟨0, false, ⟨fun i => i, 32, 10, 22, 4⟩, mkBuf 32 zeroMem⟩

/-- Witness for claim C4 at `exCtxB`: compaction yields `position = 6`,
`packet = 0`, `remaining = 26`, and byte 0 now holds the old byte 4. -/
theorem claim_C4_w :
    (bfddp_read_finish exCtxB).inbuf.position = 6 ∧
    (bfddp_read_finish exCtxB).inbuf.packet = 0 ∧
    (bfddp_read_finish exCtxB).inbuf.remaining = 26 ∧
    (bfddp_read_finish exCtxB).inbuf.buf 0 = 4 :=
  ⟨(claim_C4 exCtxB (by decide)).1,
   (claim_C4 exCtxB (by decide)).2.1,
   (claim_C4 exCtxB (by decide)).2.2.2.1,
   (claim_C4 exCtxB (by decide)).2.2.2.2 0 (by decide)⟩

/-- Claim C7: compaction is idempotent.  Under the cursor invariant, a
second `bfddp_read_finish` right after a first one changes nothing
(contents of `[0, position)` and all cursors), and a call with
`packet = 0` already changes nothing. -/
theorem claim_C7 (c : BfddpCtx) (h : c.inbuf.inv) :
    ((∀ i, i < (bfddp_read_finish c).inbuf.position →
        (bfddp_read_finish (bfddp_read_finish c)).inbuf.buf i =
          (bfddp_read_finish c).inbuf.buf i) ∧
      (bfddp_read_finish (bfddp_read_finish c)).inbuf.position =
        (bfddp_read_finish c).inbuf.position ∧
      (bfddp_read_finish (bfddp_read_finish c)).inbuf.packet =
        (bfddp_read_finish c).inbuf.packet ∧
      (bfddp_read_finish (bfddp_read_finish c)).inbuf.remaining =
        (bfddp_read_finish c).inbuf.remaining ∧
      (bfddp_read_finish (bfddp_read_finish c)).inbuf.total =
        (bfddp_read_finish c).inbuf.total) ∧
    (c.inbuf.packet = 0 →
      (∀ i, i < c.inbuf.position →
        (bfddp_read_finish c).inbuf.buf i = c.inbuf.buf i) ∧
      (bfddp_read_finish c).inbuf.position = c.inbuf.position ∧
      (bfddp_read_finish c).inbuf.packet = c.inbuf.packet ∧
      (bfddp_read_finish c).inbuf.remaining = c.inbuf.remaining ∧
      (bfddp_read_finish c).inbuf.total = c.inbuf.total) :=
  ⟨pulldown_packet_zero (bfddp_buf_pulldown c.inbuf) (pulldown_inv c.inbuf h)
      (pulldown_packet c.inbuf h),
   fun hp => pulldown_packet_zero c.inbuf h hp⟩

/-- Witness for claim C7 at `exCtxB` and at a context with `packet = 0`. -/
theorem claim_C7_w :
    (bfddp_read_finish (bfddp_read_finish exCtxB)).inbuf.position =
      (bfddp_read_finish exCtxB).inbuf.position ∧
    (bfddp_read_finish (bfddp_read_finish exCtxB)).inbuf.packet =
      (bfddp_read_finish exCtxB).inbuf.packet ∧
    (bfddp_read_finish (bfddp_read_finish exCtxB)).inbuf.buf 0 =
      (bfddp_read_finish exCtxB).inbuf.buf 0 ∧
    (bfddp_read_finish exNewCtx).inbuf.position = exNewCtx.inbuf.position :=
  ⟨(claim_C7 exCtxB (by decide)).1.2.1,
   (claim_C7 exCtxB (by decide)).1.2.2.1,
   (claim_C7 exCtxB (by decide)).1.1 0 (by decide),
   ((claim_C7 exNewCtx (by decide)).2 (by decide)).2.1⟩

/-- On a non-full buffer, a 0-byte read (peer close) makes `bfddp_buf_read`
clear errno and return -1 (bfddp.c lines 174-177). -/
lemma buf_read_close (b : BfddpBuf) (e : Nat) (h : BFDDP_BUF_FULL b = false) :
    bfddp_buf_read b (ReadEvent.data []) e = ⟨b, -1, 0, true⟩ := by
  simp [bfddp_buf_read, h]

/-- On a non-full buffer, a transient read failure makes `bfddp_buf_read`
return 0 keeping the errno (bfddp.c lines 180-181). -/
lemma buf_read_transient (b : BfddpBuf) (e E : Nat) (h : BFDDP_BUF_FULL b = false)
    (ht : transientErrno E = true) :
    bfddp_buf_read b (ReadEvent.errno E) e = ⟨b, 0, E, true⟩ := by
  simp [bfddp_buf_read, h, ht]

/-- On a non-full buffer, a non-transient read failure makes
`bfddp_buf_read` return -1 with the failing errno (bfddp.c line 184). -/
lemma buf_read_hard (b : BfddpBuf) (e E : Nat) (h : BFDDP_BUF_FULL b = false)
    (ht : transientErrno E = false) :
    bfddp_buf_read b (ReadEvent.errno E) e = ⟨b, -1, E, true⟩ := by
  simp [bfddp_buf_read, h, ht]

/-- Memory holding one complete 8-byte frame at offset 0 whose big-endian
length field is 8; everything else (including the free region) is zero. -/
def exMem1 : Nat → Nat := fun i => if i = 1 then 8 else 0

/-- A context whose inbound buffer holds exactly that complete frame:
`packet = 0`, `position = 8`, capacity 4096. -/
def exCtx1 : BfddpCtx := ⟨0, false, ⟨exMem1, 4096, 8, 4088, 0⟩, mkBuf 4096 zeroMem⟩

/-- Claim C1, evaluated at the failing input: the inbound buffer holds one
complete frame of declared length 8 at the consumption cursor
(`packet = 0`, `position = 8`, length field at offset 0 decodes to 8), so
per the claim `bfddp_next_message` must return a view starting at offset
`packet = 0`; the code instead takes the message pointer at
`&buf->buf[buf->position]` (bfddp.c line 318) and compares the length
found *there* against `buf->position` (line 319), returning the offset 8 —
a view into the unwritten free region, not the frame. -/
theorem claim_C1_bug :
    bfddp_next_message lenBE exCtx1 = some 8 ∧
    exCtx1.inbuf.packet = 0 ∧
    exCtx1.inbuf.position = 8 ∧
    lenBE exCtx1.inbuf.buf 0 = 8 ∧
    (8 : Nat) ≠ 0 :=
  ⟨rfl, rfl, rfl, by decide, by decide⟩

/-- Counterexample to claim C3 as stated: the first read delivers 3 bytes,
the second returns 0 bytes (peer closed).  `bfddp_read` returns the partial
total 3 — not the sentinel -1 — even though the underlying read returned 0
bytes during this call (errno does end up 0). -/
theorem claim_C3_cex :
    ((bfddp_read 72 (mkBuf 4096 zeroMem)
        [ReadEvent.data [1, 2, 3], ReadEvent.data []] 9).map
      (fun o => (o.ret, o.errno))) = some ((3 : Int), 0) ∧
    ((3 : Int) = -1 → False) :=
  ⟨rfl, by decide⟩

/-- Claim C3 amended: a 0-byte read (peer close) observed while no bytes
have yet been accumulated in this `bfddp_read` call is surfaced as -1 with
errno cleared to 0; a close observed after a positive partial total is
deferred — that total is returned (errno still 0); and a transient
would-block failure with nothing accumulated returns 0 keeping its errno,
so the -1/errno-0 close sentinel stays distinguishable from the transient
would-block 0 return. -/
theorem claim_C3_amended :
    (∀ msgsz b evs e, BFDDP_BUF_FULL (preRead msgsz b) = false →
      bfddp_read msgsz b (ReadEvent.data [] :: evs) e =
        some ⟨preRead msgsz b, -1, 0⟩) ∧
    (∀ b total evs e, BFDDP_BUF_FULL b = false → total ≠ 0 →
      bfddp_read_loop b total e (ReadEvent.data [] :: evs) = some ⟨b, total, 0⟩) ∧
    (∀ msgsz b evs e E, BFDDP_BUF_FULL (preRead msgsz b) = false →
      transientErrno E = true →
      bfddp_read msgsz b (ReadEvent.errno E :: evs) e =
        some ⟨preRead msgsz b, 0, E⟩) := by
  refine ⟨?_, ?_, ?_⟩
  · intro msgsz b evs e hfull
    unfold bfddp_read
    rw [bfddp_read_loop, buf_read_close (preRead msgsz b) e hfull]
    simp
  · intro b total evs e hfull htz
    rw [bfddp_read_loop, buf_read_close b e hfull]
    simp [htz]
  · intro msgsz b evs e E hfull ht
    unfold bfddp_read
    rw [bfddp_read_loop, buf_read_transient (preRead msgsz b) e E hfull ht]
    simp [hfull]

/-- Witness for the amended claim C3 at concrete inputs: close-first gives
(-1, errno 0); close after 3 accumulated bytes gives (3, errno 0);
would-block-first gives (0, errno EAGAIN). -/
theorem claim_C3_amended_w :
    bfddp_read 72 (mkBuf 4096 zeroMem) [ReadEvent.data []] 9 =
      some ⟨mkBuf 4096 zeroMem, -1, 0⟩ ∧
    bfddp_read_loop exBufA 3 7 [ReadEvent.data []] = some ⟨exBufA, 3, 0⟩ ∧
    bfddp_read 72 (mkBuf 4096 zeroMem) [ReadEvent.errno 11] 9 =
      some ⟨mkBuf 4096 zeroMem, 0, 11⟩ :=
  ⟨claim_C3_amended.1 72 (mkBuf 4096 zeroMem) [] 9 (by decide),
   claim_C3_amended.2.1 exBufA 3 [] 7 (by decide) (by decide),
   claim_C3_amended.2.2 72 (mkBuf 4096 zeroMem) [] 9 11 (by decide) (by decide)⟩

/-- A full inbound buffer (position = total = 16). -/
def exBufFull : BfddpBuf := ⟨zeroMem, 16, 16, 0, 3⟩

/-- A buffer whose free space (6 bytes) is below a message size of 72. -/
def exBufSmall : BfddpBuf := ⟨zeroMem, 16, 10, 6, 4⟩

/-- Claim C5: a full buffer causes `bfddp_buf_read` to return without
issuing a `read(2)` call and leaves everything unchanged; a read is issued
only into a non-full buffer; the read loop returns immediately against a
full buffer; `bfddp_read` compacts before reading whenever
`remaining ≤ sizeof(struct bfddp_message)`; and every read writes only
into `[position, position + remaining)`, which under the invariant lies
within the buffer bounds. -/
theorem claim_C5 :
    (∀ b ev e, BFDDP_BUF_FULL b = true →
      bfddp_buf_read b ev e = ⟨b, 0, e, false⟩) ∧
    (∀ b ev e, (bfddp_buf_read b ev e).issued = true → BFDDP_BUF_FULL b = false) ∧
    (∀ b total ev evs e, BFDDP_BUF_FULL b = true →
      bfddp_read_loop b total e (ev :: evs) = some ⟨b, total, e⟩) ∧
    (∀ msgsz b evs e, b.remaining ≤ msgsz →
      bfddp_read msgsz b evs e = bfddp_read_loop (bfddp_buf_pulldown b) 0 e evs) ∧
    (∀ b ev e i, i < b.position ∨ b.position + b.remaining ≤ i →
      (bfddp_buf_read b ev e).buf.buf i = b.buf i) ∧
    (∀ b, BfddpBuf.inv b → b.position + b.remaining = b.total) := by
  refine ⟨?_, ?_, ?_, ?_, ?_, ?_⟩
  · intro b ev e h
    simp [bfddp_buf_read, h]
  · intro b ev e h
    cases hfull : BFDDP_BUF_FULL b
    · rfl
    · rw [show bfddp_buf_read b ev e = ⟨b, 0, e, false⟩ from by
        simp [bfddp_buf_read, hfull]] at h
      exact absurd h (by simp)
  · intro b total ev evs e h
    rw [bfddp_read_loop]
    rw [show bfddp_buf_read b ev e = ⟨b, 0, e, false⟩ from by
      simp [bfddp_buf_read, h]]
    simp [h]
  · intro msgsz b evs e h
    unfold bfddp_read preRead
    rw [if_pos h]
  · intro b ev e i hi
    unfold bfddp_buf_read
    split
    · rfl
    · match ev with
      | .errno E =>
        dsimp only
        split <;> rfl
      | .data bytes =>
        dsimp only
        split
        · rfl
        · show writeBytes b.buf b.position (bytes.take b.remaining) i = b.buf i
          have hlen : (bytes.take b.remaining).length ≤ b.remaining := by
            simp [List.length_take]
          unfold writeBytes
          rw [if_neg (by omega)]
  · intro b hb
    obtain ⟨h1, h2, h3⟩ := hb
    omega

/-- Witness for claim C5 at concrete inputs: against the full 16-byte
buffer no read is issued and the loop returns at once; a buffer with 6
free bytes and message size 72 is compacted before reading; a read into
`exBufA` leaves byte 0 alone; and the free window of `exBufA` ends exactly at
its capacity. -/
theorem claim_C5_w :
    bfddp_buf_read exBufFull (ReadEvent.data [1]) 7 = ⟨exBufFull, 0, 7, false⟩ ∧
    bfddp_read_loop exBufFull 5 7 [ReadEvent.data [1]] = some ⟨exBufFull, 5, 7⟩ ∧
    bfddp_read 72 exBufSmall [] 7 =
      bfddp_read_loop (bfddp_buf_pulldown exBufSmall) 0 7 [] ∧
    (bfddp_buf_read exBufA (ReadEvent.data [1]) 7).buf.buf 0 = exBufA.buf 0 ∧
    exBufA.position + exBufA.remaining = exBufA.total :=
  ⟨claim_C5.1 exBufFull (ReadEvent.data [1]) 7 (by decide),
   claim_C5.2.2.1 exBufFull 5 (ReadEvent.data [1]) [] 7 (by decide),
   claim_C5.2.2.2.1 72 exBufSmall [] 7 (by decide),
   claim_C5.2.2.2.2.1 exBufA (ReadEvent.data [1]) 7 0 (Or.inl (by decide)),
   claim_C5.2.2.2.2.2 exBufA (by decide)⟩

/-- On a non-full buffer, a read that fails with a non-transient errno ends
the loop at once: -1 if nothing was accumulated, else the partial total. -/
lemma pump_loop_hard (E : Nat) (b : BfddpBuf) (total : Int) (evs : List ReadEvent)
    (e : Nat) (htr : transientErrno E = false) (hfull : BFDDP_BUF_FULL b = false) :
    bfddp_read_loop b total e (ReadEvent.errno E :: evs) =
      some ⟨b, if total = 0 then -1 else total, E⟩ := by
  rw [bfddp_read_loop, buf_read_hard b e E hfull htr]
  by_cases ht : total = 0 <;> simp [ht]

/-- Claim C6: a non-transient read failure (errno not EINTR, EAGAIN or
EWOULDBLOCK) makes `bfddp_read` return the sentinel -1 when nothing was
accumulated in this call, and the positive partial total otherwise; every
`bfddp_read` return is -1 or non-negative. -/
theorem claim_C6 :
    (∀ E b total evs e, transientErrno E = false → BFDDP_BUF_FULL b = false →
      bfddp_read_loop b total e (ReadEvent.errno E :: evs) =
        some ⟨b, if total = 0 then -1 else total, E⟩) ∧
    (∀ msgsz b evs e E, transientErrno E = false →
      BFDDP_BUF_FULL (preRead msgsz b) = false →
      bfddp_read msgsz b (ReadEvent.errno E :: evs) e =
        some ⟨preRead msgsz b, -1, E⟩) ∧
    (∀ msgsz b evs e out, bfddp_read msgsz b evs e = some out →
      out.ret = -1 ∨ 0 ≤ out.ret) := by
  refine ⟨?_, ?_, ?_⟩
  · intro E b total evs e htr hfull
    exact pump_loop_hard E b total evs e htr hfull
  · intro msgsz b evs e E htr hfull
    unfold bfddp_read
    rw [pump_loop_hard E (preRead msgsz b) 0 evs e htr hfull]
    simp
  · intro msgsz b evs e out h
    unfold bfddp_read at h
    obtain ⟨-, -, -, -, f5⟩ :=
      pump_loop_frame evs (preRead msgsz b) 0 e out (le_refl 0) h
    rcases f5 with f5 | ⟨f5r, -, -⟩
    · right
      rw [f5]
      positivity
    · left
      exact f5r

/-- Witness for claim C6 at concrete inputs: a hard failure (errno 5 =
EIO) after 3 accumulated bytes returns 3; a hard failure first thing in
`bfddp_read` returns -1 with errno 5; and a concrete `bfddp_read` outcome
is -1-or-non-negative. -/
theorem claim_C6_w :
    bfddp_read_loop exBufA 3 7 [ReadEvent.errno 5] = some ⟨exBufA, 3, 5⟩ ∧
    bfddp_read 72 (mkBuf 4096 zeroMem) [ReadEvent.errno 5] 9 =
      some ⟨mkBuf 4096 zeroMem, -1, 5⟩ ∧
    ((PumpOut.mk exBufA 0 11).ret = -1 ∨ 0 ≤ (PumpOut.mk exBufA 0 11).ret) :=
  ⟨claim_C6.1 5 exBufA 3 [] 7 (by decide) (by decide),
   claim_C6.2.1 72 (mkBuf 4096 zeroMem) [] 9 5 (by decide) (by decide),
   claim_C6.2.2 72 exBufA [ReadEvent.errno 11] 5 ⟨exBufA, 0, 11⟩ rfl⟩

/-- Claim C10: when the pre-read guard does not trigger compaction
(`remaining > msgsz` on entry), `bfddp_read` only appends: the bytes below
the old `position`, the `packet` cursor and the capacity are unchanged,
`position` does not decrease, and a non-negative return value equals the
number of bytes appended. -/
theorem claim_C10 (msgsz : Nat) (b : BfddpBuf) (evs : List ReadEvent) (e : Nat)
    (out : PumpOut) (hrem : msgsz < b.remaining)
    (h : bfddp_read msgsz b evs e = some out) :
    out.buf.packet = b.packet ∧ out.buf.total = b.total ∧
    b.position ≤ out.buf.position ∧
    (∀ i, i < b.position → out.buf.buf i = b.buf i) ∧
    (0 ≤ out.ret → out.ret = ((out.buf.position - b.position : Nat) : Int)) := by
  unfold bfddp_read preRead at h
  rw [if_neg (by omega)] at h
  obtain ⟨f1, f2, f3, f4, f5⟩ := pump_loop_frame evs b 0 e out (le_refl 0) h
  refine ⟨f1, f2, f3, f4, ?_⟩
  intro hpos
  rcases f5 with f5 | ⟨f5r, -, -⟩
  · rw [f5]
    simp
  · rw [f5r] at hpos
    exact absurd hpos (by norm_num)

/-- Witness for claim C10: a would-block read against `exBufA` (remaining
4086 > 72) leaves `packet`, capacity, `position` and byte 0 unchanged and
returns 0 = bytes appended. -/
theorem claim_C10_w :
    (PumpOut.mk exBufA 0 11).buf.packet = exBufA.packet ∧
    (PumpOut.mk exBufA 0 11).buf.total = exBufA.total ∧
    exBufA.position ≤ (PumpOut.mk exBufA 0 11).buf.position ∧
    (PumpOut.mk exBufA 0 11).buf.buf 0 = exBufA.buf 0 ∧
    (PumpOut.mk exBufA 0 11).ret =
      (((PumpOut.mk exBufA 0 11).buf.position - exBufA.position : Nat) : Int) :=
  ⟨(claim_C10 72 exBufA [ReadEvent.errno 11] 5 ⟨exBufA, 0, 11⟩ (by decide) rfl).1,
   (claim_C10 72 exBufA [ReadEvent.errno 11] 5 ⟨exBufA, 0, 11⟩ (by decide) rfl).2.1,
   (claim_C10 72 exBufA [ReadEvent.errno 11] 5 ⟨exBufA, 0, 11⟩ (by decide) rfl).2.2.1,
   (claim_C10 72 exBufA [ReadEvent.errno 11] 5 ⟨exBufA, 0, 11⟩ (by decide) rfl).2.2.2.1
     0 (by decide),
   (claim_C10 72 exBufA [ReadEvent.errno 11] 5 ⟨exBufA, 0, 11⟩ (by decide) rfl).2.2.2.2
     (by decide)⟩

/-- Claim C9: `bfddp_connect` fails with -1 and closes the partially
created socket while preserving the triggering errno whenever socket
creation, non-blocking configuration, nodelay configuration, or connect
fails with anything but EINPROGRESS; a connect reporting EINPROGRESS is a
success (0) that stores the socket and sets the connecting flag.  The
close trace `[none]` is a normally succeeding `close(2)`. -/
theorem claim_C9 (env : SockEnv) (c : BfddpCtx) (e : Nat) :
    (env.socketFd = -1 →
      (bfddp_connect env [none] c e).ret = -1 ∧
      (bfddp_connect env [none] c e).errno = env.socketErrno ∧
      (bfddp_connect env [none] c e).closed = []) ∧
    (env.socketFd ≠ -1 → (sock_set_nonblock env e).1 = -1 →
      (bfddp_connect env [none] c e).ret = -1 ∧
      (bfddp_connect env [none] c e).errno = (sock_set_nonblock env e).2 ∧
      (bfddp_connect env [none] c e).closed = [env.socketFd]) ∧
    (env.socketFd ≠ -1 → (sock_set_nonblock env e).1 ≠ -1 → env.nodelayRv ≠ 0 →
      (bfddp_connect env [none] c e).ret = -1 ∧
      (bfddp_connect env [none] c e).errno = env.nodelayErrno ∧
      (bfddp_connect env [none] c e).closed = [env.socketFd]) ∧
    (env.socketFd ≠ -1 → (sock_set_nonblock env e).1 ≠ -1 → env.nodelayRv = 0 →
      env.connectRv = -1 → env.connectErrno ≠ EINPROGRESS →
      (bfddp_connect env [none] c e).ret = -1 ∧
      (bfddp_connect env [none] c e).errno = env.connectErrno ∧
      (bfddp_connect env [none] c e).closed = [env.socketFd]) ∧
    (env.socketFd ≠ -1 → (sock_set_nonblock env e).1 ≠ -1 → env.nodelayRv = 0 →
      env.connectRv = -1 → env.connectErrno = EINPROGRESS →
      (bfddp_connect env [none] c e).ret = 0 ∧
      (bfddp_connect env [none] c e).ctx.connecting = true ∧
      (bfddp_connect env [none] c e).ctx.sock = env.socketFd ∧
      (bfddp_connect env [none] c e).closed = []) := by
  refine ⟨?_, ?_, ?_, ?_, ?_⟩
  · intro h1
    simp [bfddp_connect, h1]
  · intro h1 h2
    simp [bfddp_connect, h1, h2, sock_close, close_retry]
  · intro h1 h2 h3
    simp [bfddp_connect, h1, h2, h3, socktcp_set_nodelay, sock_close, close_retry]
  · intro h1 h2 h3 h4 h5
    simp [bfddp_connect, h1, h2, h3, h4, h5, socktcp_set_nodelay, sock_close,
      close_retry]
  · intro h1 h2 h3 h4 h5
    simp [bfddp_connect, h1, h2, h3, h4, h5, socktcp_set_nodelay]

/-- System-call outcomes where connect fails hard: socket fd 5, O_NONBLOCK
already set, nodelay fine, connect returns -1 with errno 111
(ECONNREFUSED). -/
def exEnvD : SockEnv := ⟨5, 0, 2048, 0, 0, 0, 0, 0, -1, 111⟩

/-- Same outcomes but connect reports EINPROGRESS (errno 115). -/
def exEnvE : SockEnv := ⟨5, 0, 2048, 0, 0, 0, 0, 0, -1, 115⟩

/-- Witness for claim C9: a refused connect yields -1 with errno 111 and
socket 5 closed; an in-progress connect yields 0 with the connecting flag
set and socket 5 stored. -/
theorem claim_C9_w :
    (bfddp_connect exEnvD [none] exNewCtx 0).ret = -1 ∧
    (bfddp_connect exEnvD [none] exNewCtx 0).errno = 111 ∧
    (bfddp_connect exEnvD [none] exNewCtx 0).closed = [5] ∧
    (bfddp_connect exEnvE [none] exNewCtx 0).ret = 0 ∧
    (bfddp_connect exEnvE [none] exNewCtx 0).ctx.connecting = true ∧
    (bfddp_connect exEnvE [none] exNewCtx 0).ctx.sock = 5 :=
  ⟨((claim_C9 exEnvD exNewCtx 0).2.2.2.1 (by decide) (by decide) (by decide)
      (by decide) (by decide)).1,
   ((claim_C9 exEnvD exNewCtx 0).2.2.2.1 (by decide) (by decide) (by decide)
      (by decide) (by decide)).2.1,
   ((claim_C9 exEnvD exNewCtx 0).2.2.2.1 (by decide) (by decide) (by decide)
      (by decide) (by decide)).2.2,
   ((claim_C9 exEnvE exNewCtx 0).2.2.2.2 (by decide) (by decide) (by decide)
      (by decide) (by decide)).1,
   ((claim_C9 exEnvE exNewCtx 0).2.2.2.2 (by decide) (by decide) (by decide)
      (by decide) (by decide)).2.1,
   ((claim_C9 exEnvE exNewCtx 0).2.2.2.2 (by decide) (by decide) (by decide)
      (by decide) (by decide)).2.2.1⟩

end Bfddp
